import Mathlib

/-!
Verification of the CSV stringifier (`src/csv/stringify.ts`).

The development shallowly embeds the module: JavaScript runtime values are
modelled by the inductive type `Value`, the helper functions
`getEscapedString`, `normalizeColumn` and `getValuesFromItem` and the entry
point `stringify` are translated definition by definition, and the thrown
`TypeError`s become the error codes of `StringifyErr` (fallible code returns
`Except`).  Numeric values are modelled as integers (`Int`), which matches
the textual conversion of every integral JavaScript number appearing here;
plain objects are modelled as association lists of own properties.
-/

namespace CsvStringify

/-! ### String primitives

The JavaScript string operations used by the module
(`String.prototype.includes`, `String.prototype.replaceAll` with the
single-character pattern `"`, `Array.prototype.join`) are modelled over the
character list of a Lean `String`. -/

/-- `matchesAt pat hay` is true when `pat` occurs at the very beginning of
`hay` (both as character lists). -/
def matchesAt : List Char → List Char → Bool
  | [], _ => true
  | _ :: _, [] => false
  | p :: ps, h :: hs => p == h && matchesAt ps hs

/-- `hasSubList hay pat` is true when `pat` occurs contiguously somewhere in
`hay`.  This models `hay.includes(pat)` in JavaScript; in particular the
empty pattern occurs in every string. -/
def hasSubList : List Char → List Char → Bool
  | [], pat => matchesAt pat []
  | c :: t, pat => matchesAt pat (c :: t) || hasSubList t pat

/-- Model of `s.includes(pat)` for JavaScript strings. -/
def strHasSub (s pat : String) : Bool :=
  hasSubList s.data pat.data

/-- Character-list model of `str.replaceAll(QUOTE, QUOTE + QUOTE)`: every
double-quote character is doubled, all other characters are kept. -/
def dupQuoteChars : List Char → List Char
  | [] => []
  | c :: rest => if c = '"' then '"' :: '"' :: dupQuoteChars rest else c :: dupQuoteChars rest

/-- Model of `str.replaceAll('"', '""')` from the escaping routine. -/
def escapeQuotes (s : String) : String :=
  String.mk (dupQuoteChars s.data)

/-- Model of `Array.prototype.join(sep)` on a list of strings. -/
def joinWithSep : List String → String → String
  | [], _ => ""
  | [p], _ => p
  | p :: rest, sep => p ++ sep ++ joinWithSep rest sep

/-! ### The value universe

`Value` models the JavaScript values that can flow through the module:
`undefined`, `null`, booleans, (integral) numbers, strings, arrays and plain
objects given by their own enumerable properties in definition order. -/

inductive Value where
  | vUndefined : Value
  | vNull : Value
  | vBool : Bool → Value
  | vNum : Int → Value
  | vStr : String → Value
  | vArr : List Value → Value
  | vObj : List (String × Value) → Value

/-- Model of the JavaScript `typeof` operator on `Value`; note that
`typeof null` is the string `"object"`. -/
def jsTypeof : Value → String
  | .vUndefined => "undefined"
  | .vNull => "object"
  | .vBool _ => "boolean"
  | .vNum _ => "number"
  | .vStr _ => "string"
  | .vArr _ => "object"
  | .vObj _ => "object"

/-- The test `value === undefined || value === null` that starts
`getEscapedString`. -/
def isAbsentValue : Value → Bool
  | .vUndefined => true
  | .vNull => true
  | _ => false

/-- The test `typeof value === "object" && value !== null` used (negated) by
the traversal loop of `getValuesFromItem`: true exactly for arrays and
non-null objects. -/
def isObjectLike : Value → Bool
  | .vArr _ => true
  | .vObj _ => true
  | _ => false

/-- Model of `Array.isArray`. -/
def isJsArray : Value → Bool
  | .vArr _ => true
  | _ => false

/-! ### Model of the JavaScript built-in `JSON.stringify`

`getEscapedString` calls `JSON.stringify(value)` on values of `typeof`
`"object"`.  The model renders the standard JSON text: `undefined` array
elements become `null`, object members whose value is `undefined` are
dropped, and strings are quoted with the usual JSON escapes. -/

/-- Lower-case hexadecimal digit. -/
def hexDigitChar (n : Nat) : Char :=
  if n < 10 then Char.ofNat (48 + n) else Char.ofNat (87 + n)

/-- Four hexadecimal digits, as used by the JSON `\uXXXX` escape. -/
def hexDigits4 (n : Nat) : List Char :=
  [hexDigitChar (n / 4096 % 16), hexDigitChar (n / 256 % 16),
   hexDigitChar (n / 16 % 16), hexDigitChar (n % 16)]

/-- JSON string-body escaping, character by character. -/
def jsonEscapeChars : List Char → List Char
  | [] => []
  | c :: rest =>
    (if c = '"' then ['\\', '"']
     else if c = '\\' then ['\\', '\\']
     else if c = '\x08' then ['\\', 'b']
     else if c = '\x0c' then ['\\', 'f']
     else if c = '\n' then ['\\', 'n']
     else if c = '\r' then ['\\', 'r']
     else if c = '\t' then ['\\', 't']
     else if c.toNat < 32 then '\\' :: 'u' :: hexDigits4 c.toNat
     else [c]) ++ jsonEscapeChars rest

/-- A JSON string literal: the escaped body wrapped in double-quotes. -/
def jsonQuoteText (s : String) : String :=
  "\"" ++ String.mk (jsonEscapeChars s.data) ++ "\""

/-- Comma-join, as used between JSON array elements and object members. -/
def joinComma (parts : List String) : String :=
  joinWithSep parts ","

mutual

/-- Model of the JavaScript built-in `JSON.stringify` on the `Value`
universe.  The `vUndefined` case is unreachable from `getEscapedString`
(absent values return early there) and from the recursion (array elements
and object members filter `undefined` before recursing); it is mapped to
`"null"` for totality. -/
def jsonStringify : Value → String
  | .vUndefined => "null"
  | .vNull => "null"
  | .vBool true => "true"
  | .vBool false => "false"
  | .vNum n => toString n
  | .vStr s => jsonQuoteText s
  | .vArr elems => "[" ++ joinComma (jsonArrayItemTexts elems) ++ "]"
  | .vObj fields => "\x7b" ++ joinComma (jsonMemberTexts fields) ++ "\x7d"

/-- The serialized texts of the elements of a JSON array; an `undefined`
element renders as `null`. -/
def jsonArrayItemTexts : List Value → List String
  | [] => []
  | .vUndefined :: rest => "null" :: jsonArrayItemTexts rest
  | v :: rest => jsonStringify v :: jsonArrayItemTexts rest

/-- The serialized `"key":value` texts of the members of a JSON object;
members whose value is `undefined` are dropped. -/
def jsonMemberTexts : List (String × Value) → List String
  | [] => []
  | (_, .vUndefined) :: rest => jsonMemberTexts rest
  | (k, v) :: rest => (jsonQuoteText k ++ ":" ++ jsonStringify v) :: jsonMemberTexts rest

end

/-- Model of the JavaScript `String(value)` conversion for the values on
which `getEscapedString` uses it (`typeof value !== "object"`); the array
and object cases are unreachable from there. -/
def jsStringValue : Value → String
  | .vUndefined => "undefined"
  | .vNull => "null"
  | .vBool true => "true"
  | .vBool false => "false"
  | .vNum n => toString n
  | .vStr s => s
  | .vArr elems => joinComma (jsonArrayItemTexts elems)
  | .vObj fields => "\x7b" ++ joinComma (jsonMemberTexts fields) ++ "\x7d"

/-! ### `getEscapedString` (src/csv/stringify.ts lines 130-144) -/

/-- The condition of line 139:
`str.includes(sep) || str.includes(LF) || str.includes(QUOTE)`. -/
def needsQuoting (str sep : String) : Bool :=
  strHasSub str sep || strHasSub str "\n" || strHasSub str "\""

/-- Translation of `getEscapedString(value, sep)`: absent values return the
empty string at once; otherwise the text of the value is computed
(`JSON.stringify` for `typeof` `"object"`, `String(value)` otherwise) and
wrapped in doubled-quote escaping when it contains the separator, a line
feed or a double quote. -/
def getEscapedString (value : Value) (sep : String) : String :=
  if isAbsentValue value then ""
  else
    let str := if jsTypeof value = "object" then jsonStringify value else jsStringValue value
    if needsQuoting str sep then "\"" ++ escapeQuotes str ++ "\"" else str

/-- The text representation a value contributes to a field: empty for absent
values (which `getEscapedString` returns before any quoting), otherwise the
`JSON.stringify`/`String` conversion of line 134/135. -/
def textRep (v : Value) : String :=
  if isAbsentValue v then ""
  else if jsTypeof v = "object" then jsonStringify v else jsStringValue v

/-- Whether a string is wrapped in double-quotes: length at least two, first
and last character both `"`. -/
def wrappedInQuotesList : List Char → Bool
  | [] => false
  | [_] => false
  | c :: rest => c == '"' && rest.getLast? == some '"'

/-- String form of `wrappedInQuotesList`. -/
def wrappedInQuotes (s : String) : Bool :=
  wrappedInQuotesList s.data

/-! ### Column normalization (src/csv/stringify.ts lines 146-171) -/

/-- `PropertyAccessor`: an array index or record key (`number | string`). -/
inductive PropertyAccessor where
  | num : Int → PropertyAccessor
  | str : String → PropertyAccessor
deriving DecidableEq, Repr

/-- Model of `String(accessor)`, also the key coercion applied when an
accessor indexes a plain object. -/
def accessorText : PropertyAccessor → String
  | .num n => toString n
  | .str s => s

/-- The `Column` input type: a bare accessor, an accessor list, or a
`ColumnDetails` object carrying an optional explicit header together with
one accessor or an accessor list. -/
inductive Column where
  | acc : PropertyAccessor → Column
  | accList : List PropertyAccessor → Column
  | details : Option String → Sum PropertyAccessor (List PropertyAccessor) → Column

/-- A `NormalizedColumn`: resolved header text plus accessor path. -/
structure NormalizedColumn where
  header : String
  prop : List PropertyAccessor
deriving DecidableEq, Repr

/-- Model of `String(accs[accs.length - 1])`.  On the empty list the
JavaScript index is `-1`, the element read is `undefined`, and
`String(undefined)` is the text `"undefined"`. -/
def lastAccessorText (accs : List PropertyAccessor) : String :=
  match accs.getLast? with
  | some a => accessorText a
  | none => "undefined"

/-- Translation of `normalizeColumn(column)`. -/
def normalizeColumn : Column → NormalizedColumn
  | .accList accs => ⟨lastAccessorText accs, accs⟩
  | .details hdr propSpec =>
    let prop := match propSpec with
      | .inl a => [a]
      | .inr accs => accs
    ⟨match hdr with
      | some h => h
      | none => lastAccessorText prop, prop⟩
  | .acc a => ⟨accessorText a, [a]⟩

/-- The accessors supplied by a column specification, before normalization. -/
def columnAccessors : Column → List PropertyAccessor
  | .acc a => [a]
  | .accList accs => accs
  | .details _ (.inl a) => [a]
  | .details _ (.inr accs) => accs

/-- The explicit header carried by a column specification, when any. -/
def columnHeaderOpt : Column → Option String
  | .details (some h) _ => some h
  | _ => none

/-! ### Value resolution (src/csv/stringify.ts lines 177-217) -/

/-- The `TypeError`s thrown by the module, as error codes. -/
inductive StringifyErr where
  | invalidSeparator : StringifyErr
  | invalidPropertyAccessor : StringifyErr
  | noPropertyAccessor : StringifyErr
deriving DecidableEq, Repr

/-- The message text of each thrown `TypeError`. -/
def errorMessage : StringifyErr → String
  | .invalidSeparator =>
    "Separator cannot include the following strings:\n  - U+0022: Quotation mark (\")\n  - U+000D U+000A: Carriage Return + Line Feed (\\r\\n)"
  | .invalidPropertyAccessor => "Property accessor is not of type \x22number\x22"
  | .noPropertyAccessor => "No property accessor function was provided for object"

/-- Own-property lookup on a modelled plain object; a missing key reads as
`undefined`. -/
def objectFieldGet : List (String × Value) → String → Value
  | [], _ => Value.vUndefined
  | (k, v) :: rest, key => if k = key then v else objectFieldGet rest key

/-- Whether a modelled plain object has an own property named `key`. -/
def hasField : List (String × Value) → String → Bool
  | [], _ => false
  | (k, _) :: rest, key => k == key || hasField rest key

/-- Model of `array[n]` for an (integral) numeric index: a negative or
out-of-range index reads as `undefined`. -/
def jsArrayGet (elems : List Value) (n : Int) : Value :=
  if n < 0 then Value.vUndefined else elems.getD n.toNat Value.vUndefined

/-- The inner loop of `getValuesFromItem` over `column.prop`: a value that
is not object-like leaves the step as a no-op (`continue`); a string
accessor applied to an array throws; otherwise the accessor indexes the
array or object. -/
def resolveAccessors : Value → List PropertyAccessor → Except StringifyErr Value
  | value, [] => .ok value
  | value, prop :: rest =>
    if isObjectLike value = false then resolveAccessors value rest
    else
      match value, prop with
      | .vArr elems, .num n => resolveAccessors (jsArrayGet elems n) rest
      | .vArr _, .str _ => .error .invalidPropertyAccessor
      | .vObj fields, p => resolveAccessors (objectFieldGet fields (accessorText p)) rest
      | v, _ => resolveAccessors v rest

/-- The per-column loop of `getValuesFromItem` when columns were supplied:
each column resolves in order, the first failure aborting. -/
def resolveColumns (item : Value) : List NormalizedColumn → Except StringifyErr (List Value)
  | [] => .ok []
  | c :: rest =>
    match resolveAccessors item c.prop with
    | .error e => .error e
    | .ok v =>
      match resolveColumns item rest with
      | .error e => .error e
      | .ok vs => .ok (v :: vs)

/-- Translation of `getValuesFromItem(item, normalizedColumns)`.  With no
columns the extraction is structural: an array contributes its elements, a
non-array value of `typeof` `"object"` (a plain object, or `null`, since
`typeof null` is `"object"`) throws the missing-accessor error, and any
other value becomes a single field. -/
def getValuesFromItem (item : Value) (normalizedColumns : List NormalizedColumn) :
    Except StringifyErr (List Value) :=
  match normalizedColumns with
  | c :: rest => resolveColumns item (c :: rest)
  | [] =>
    match item with
    | .vArr elems => .ok elems
    | item => if jsTypeof item = "object" then .error .noPropertyAccessor else .ok [item]

/-! ### The entry point `stringify` (src/csv/stringify.ts lines 268-307) -/

/-- `StringifyOptions`: each field is optional; an omitted (or `undefined`)
field takes its documented default when destructured by `stringify`. -/
structure StringifyOptions where
  headers : Option Bool
  separator : Option String
  columns : Option (List Column)
  bom : Option Bool

/-- The empty options object `\x7b\x7d`. -/
def emptyOptions : StringifyOptions :=
  ⟨none, none, none, none⟩

/-- `headers = true` from the destructuring `options ?? \x7b\x7d`. -/
def resolvedHeaders (options : Option StringifyOptions) : Bool :=
  ((options.getD emptyOptions).headers).getD true

/-- `separator: sep = ","` from the destructuring. -/
def resolvedSeparator (options : Option StringifyOptions) : String :=
  ((options.getD emptyOptions).separator).getD ","

/-- `columns = []` from the destructuring. -/
def resolvedColumns (options : Option StringifyOptions) : List Column :=
  ((options.getD emptyOptions).columns).getD []

/-- `bom = false` from the destructuring. -/
def resolvedBom (options : Option StringifyOptions) : Bool :=
  ((options.getD emptyOptions).bom).getD false

/-- The header line (lines 291-296): each normalized header escaped like a
data value, joined by the separator, terminated by CRLF. -/
def headerLineText (normalizedColumns : List NormalizedColumn) (sep : String) : String :=
  joinWithSep (normalizedColumns.map (fun c => getEscapedString (.vStr c.header) sep)) sep
    ++ "\r\n"

/-- The record loop (lines 298-304): each record's values are resolved,
escaped, joined by the separator and terminated by CRLF; the first thrown
error aborts the whole loop. -/
def writeRows (normalizedColumns : List NormalizedColumn) (sep : String) :
    List Value → Except StringifyErr String
  | [] => .ok ""
  | item :: rest =>
    match getValuesFromItem item normalizedColumns with
    | .error e => .error e
    | .ok values =>
      match writeRows normalizedColumns sep rest with
      | .error e => .error e
      | .ok tail =>
        .ok ((joinWithSep (values.map (fun v => getEscapedString v sep)) sep ++ "\r\n") ++ tail)

/-- Translation of `stringify(data, options)`: validate the separator, map
`normalizeColumn` over the columns, optionally prepend the byte-order mark
and the header line, then emit one CRLF-terminated line per record. -/
def stringify (data : List Value) (options : Option StringifyOptions) :
    Except StringifyErr String :=
  if strHasSub (resolvedSeparator options) "\"" || strHasSub (resolvedSeparator options) "\r\n" then
    .error .invalidSeparator
  else
    match writeRows ((resolvedColumns options).map normalizeColumn) (resolvedSeparator options)
        data with
    | .error e => .error e
    | .ok body =>
      .ok ((if resolvedBom options then "\uFEFF" else "")
        ++ (if resolvedHeaders options = true
              ∧ 0 < ((resolvedColumns options).map normalizeColumn).length then
            headerLineText ((resolvedColumns options).map normalizeColumn)
              (resolvedSeparator options)
          else "")
        ++ body)

/-! ### Helper lemmas -/

theorem stringDataAppend (a b : String) : (a ++ b).data = a.data ++ b.data := by
  cases a
  cases b
  rfl

theorem stringAppendEmpty (s : String) : s ++ "" = s := by
  cases s with
  | mk l => exact congrArg String.mk (List.append_nil l)

theorem stringDataNeNil (s : String) (h : s ≠ "") : s.data ≠ [] := by
  intro hd
  apply h
  cases s with
  | mk l =>
    have : l = [] := hd
    rw [this]

theorem hasSubConsSingle (h c : Char) (t : List Char) :
    hasSubList (h :: t) [c] = (c == h || hasSubList t [c]) := by
  show (matchesAt [c] (h :: t) || hasSubList t [c]) = _
  rw [show matchesAt [c] (h :: t) = (c == h && matchesAt [] t) from rfl]
  rw [show matchesAt [] t = true from rfl]
  simp

theorem hasSubSingleMem (l : List Char) (c : Char) : hasSubList l [c] = true ↔ c ∈ l := by
  induction l with
  | nil =>
    rw [show hasSubList [] [c] = false from rfl]
    simp
  | cons h t ih =>
    rw [hasSubConsSingle, List.mem_cons]
    simp [ih, beq_iff_eq]

theorem lastOfSnoc (l : List Char) (a : Char) : (l ++ [a]).getLast? = some a := by
  induction l with
  | nil => rfl
  | cons h t ih =>
    rw [List.cons_append, List.getLast?_cons]
    simp only [ih]
    cases t <;> simp_all

theorem wrappedOfQuoteWrap (m : List Char) :
    wrappedInQuotesList ('"' :: (m ++ ['"'])) = true := by
  cases m with
  | nil => rfl
  | cons h t =>
    show ('"' == '"' && (h :: t ++ ['"']).getLast? == some '"') = true
    rw [lastOfSnoc (h :: t) '"']
    simp

theorem notWrappedOfNoQuote (l : List Char) (h : '"' ∉ l) :
    wrappedInQuotesList l = false := by
  match l with
  | [] => rfl
  | [_] => rfl
  | c :: d :: t =>
    have hc : c ≠ '"' := fun hcq => h (hcq ▸ List.mem_cons_self c (d :: t))
    show (c == '"' && (d :: t).getLast? == some '"') = false
    simp [hc]

theorem resolveNonObject (path : List PropertyAccessor) (v : Value)
    (h : isObjectLike v = false) : resolveAccessors v path = .ok v := by
  induction path with
  | nil => rfl
  | cons p rest ih => cases v <;> simp_all [resolveAccessors, isObjectLike]

theorem objectFieldGetNotFound (fields : List (String × Value)) (key : String)
    (h : hasField fields key = false) : objectFieldGet fields key = Value.vUndefined := by
  induction fields with
  | nil => rfl
  | cons f rest ih =>
    obtain ⟨k, v⟩ := f
    simp [hasField] at h
    simp [objectFieldGet, h.1, ih h.2]

theorem writeRowsErrorMid (ncols : List NormalizedColumn) (sep : String)
    (pre : List Value) (item : Value) (post : List Value) (e : StringifyErr)
    (hpre : ∀ x ∈ pre, ∃ vs, getValuesFromItem x ncols = .ok vs)
    (hitem : getValuesFromItem item ncols = .error e) :
    writeRows ncols sep (pre ++ item :: post) = .error e := by
  induction pre with
  | nil =>
    show writeRows ncols sep (item :: post) = _
    rw [writeRows, hitem]
  | cons x rest ih =>
    obtain ⟨vs, hvs⟩ := hpre x (List.mem_cons_self x rest)
    have hrest : ∀ y ∈ rest, ∃ vs, getValuesFromItem y ncols = .ok vs := by
      intro y hy
      exact hpre y (List.mem_cons_of_mem x hy)
    show writeRows ncols sep (x :: (rest ++ item :: post)) = _
    rw [writeRows, hvs, ih hrest]

theorem escapedNonAbsent (v : Value) (sep : String) (h : isAbsentValue v = false) :
    getEscapedString v sep =
      if needsQuoting (textRep v) sep then "\"" ++ escapeQuotes (textRep v) ++ "\""
      else textRep v := by
  rw [getEscapedString, textRep]
  simp [h]

theorem noQuoteOfNotHasSub (s : String) (h : strHasSub s "\"" = false) :
    '"' ∉ s.data := by
  intro hm
  have htrue := (hasSubSingleMem s.data '"').2 hm
  have hfalse : hasSubList s.data ['"'] = false := h
  rw [htrue] at hfalse
  exact absurd hfalse (by simp)

/-! ### Claims -/

/-- C1: for the data
`[previous Rick Sanchez record, Morty Smith record]` with options
`columns: [["name","first"],"age"]` and all other options defaulted,
`stringify` returns exactly the text with header line `first,age`, data
lines `Rick,70` and `Morty,14`, each line CRLF-terminated. -/
theorem stringifyRickMortyScenario :
    stringify
      [Value.vObj [("age", Value.vNum 70),
         ("name", Value.vObj [("first", Value.vStr "Rick"), ("last", Value.vStr "Sanchez")])],
       Value.vObj [("age", Value.vNum 14),
         ("name", Value.vObj [("first", Value.vStr "Morty"), ("last", Value.vStr "Smith")])]]
      (some ⟨none, none,
        some [Column.accList [.str "name", .str "first"], Column.acc (.str "age")], none⟩)
      = .ok "first,age\r\nRick,70\r\nMorty,14\r\n" := rfl

/-- C3: whenever the resolved separator contains a double-quote or the
carriage-return plus line-feed sequence, `stringify` fails with the
separator configuration error for every data array, and no record of the
data influences the outcome. -/
theorem separatorValidationError (data : List Value) (o : Option StringifyOptions)
    (h : (strHasSub (resolvedSeparator o) "\""
      || strHasSub (resolvedSeparator o) "\r\n") = true) :
    stringify data o = .error .invalidSeparator
      ∧ ∀ data2 : List Value, stringify data2 o = stringify data o := by
  have hmain : ∀ d : List Value, stringify d o = .error .invalidSeparator := by
    intro d
    simp [stringify, h]
  exact ⟨hmain data, fun data2 => by rw [hmain data2, hmain data]⟩

/-- Witness for C3: a one-character double-quote separator fails at once. -/
theorem separatorValidationErrorWitness :
    stringify [Value.vStr "a"] (some ⟨none, some "\"", none, none⟩)
      = .error .invalidSeparator :=
  (separatorValidationError [Value.vStr "a"] (some ⟨none, some "\"", none, none⟩) rfl).1

/-- C5: a traversal step on a value that is not object-like is a silent
no-op leaving the value unchanged for the whole remaining path; an absent
key of a Mapping resolves to `undefined` rather than an error; and absent
values escape to an empty output field. -/
theorem traversalNoOpAndAbsent (v : Value) (path : List PropertyAccessor)
    (fields : List (String × Value)) (key : PropertyAccessor)
    (rest : List PropertyAccessor) (sep : String)
    (hv : isObjectLike v = false)
    (hk : hasField fields (accessorText key) = false) :
    resolveAccessors v path = .ok v
      ∧ resolveAccessors (.vObj fields) (key :: rest) = .ok .vUndefined
      ∧ getEscapedString .vUndefined sep = ""
      ∧ getEscapedString .vNull sep = "" := by
  refine ⟨resolveNonObject path v hv, ?_, rfl, rfl⟩
  have step : resolveAccessors (Value.vObj fields) (key :: rest)
      = resolveAccessors (objectFieldGet fields (accessorText key)) rest := rfl
  rw [step, objectFieldGetNotFound fields _ hk]
  exact resolveNonObject rest _ rfl

/-- Witness for C5: the absent key `b` of the Mapping resolves to
`undefined`. -/
theorem traversalNoOpAndAbsentWitness :
    resolveAccessors (Value.vObj [("a", Value.vNum 1)]) [PropertyAccessor.str "b"]
      = .ok Value.vUndefined :=
  (traversalNoOpAndAbsent (Value.vStr "x") [] [("a", Value.vNum 1)]
    (PropertyAccessor.str "b") [] "," rfl rfl).2.1

/-- C6: a string accessor reaching a Sequence value raises the
accessor-type mismatch error, and a record whose resolution raises it (all
earlier records resolving) makes the whole `stringify` call fail with that
error: no partial output is returned. -/
theorem accessorTypeMismatchAborts (elems : List Value) (s : String)
    (tail : List PropertyAccessor) (pre post : List Value) (item : Value)
    (o : Option StringifyOptions)
    (hsep : (strHasSub (resolvedSeparator o) "\""
      || strHasSub (resolvedSeparator o) "\r\n") = false)
    (hpre : ∀ x ∈ pre,
      ∃ vs, getValuesFromItem x ((resolvedColumns o).map normalizeColumn) = .ok vs)
    (hitem : getValuesFromItem item ((resolvedColumns o).map normalizeColumn)
      = .error .invalidPropertyAccessor) :
    resolveAccessors (.vArr elems) (.str s :: tail) = .error .invalidPropertyAccessor
      ∧ stringify (pre ++ item :: post) o = .error .invalidPropertyAccessor := by
  constructor
  · rfl
  · have hrows := writeRowsErrorMid ((resolvedColumns o).map normalizeColumn)
      (resolvedSeparator o) pre item post _ hpre hitem
    simp [stringify, hsep, hrows]

/-- Witness for C6: a string accessor on an array record aborts the call. -/
theorem accessorTypeMismatchAbortsWitness :
    stringify [Value.vArr []]
      (some ⟨none, none, some [Column.acc (PropertyAccessor.str "x")], none⟩)
      = .error .invalidPropertyAccessor :=
  (accessorTypeMismatchAborts [] "x" [] [] [] (Value.vArr [])
    (some ⟨none, none, some [Column.acc (PropertyAccessor.str "x")], none⟩)
    rfl (fun x hx => absurd hx (List.not_mem_nil x)) rfl).2

/-- C7: in the no-column-specification mode a Sequence record contributes
its elements directly as the fields of the row; a non-array record of
`typeof` `"object"` (a Mapping) raises the missing-accessor error when
reached; and any other (scalar) record becomes a single-field row. -/
theorem structuralModeClassification (item : Value) :
    (∀ elems, item = .vArr elems → getValuesFromItem item [] = .ok elems)
      ∧ (isJsArray item = false → jsTypeof item = "object" →
          getValuesFromItem item [] = .error .noPropertyAccessor)
      ∧ (jsTypeof item ≠ "object" → getValuesFromItem item [] = .ok [item]) := by
  refine ⟨?_, ?_, ?_⟩
  · rintro elems rfl
    rfl
  · intro harr hobj
    cases item <;> simp_all [isJsArray, jsTypeof, getValuesFromItem]
  · intro hobj
    cases item <;> simp_all [jsTypeof, getValuesFromItem]

/-- Witness for C7: a Mapping record with no columns raises the
missing-accessor error. -/
theorem structuralModeClassificationWitness :
    getValuesFromItem (Value.vObj [("a", Value.vNum 1)]) []
      = .error .noPropertyAccessor :=
  (structuralModeClassification (Value.vObj [("a", Value.vNum 1)])).2.1 rfl rfl

/-- C8 counterexample: the empty accessor-list column specification is a
well-typed column specification, and normalizing it produces an empty path,
refuting the invariant that the path of every Normalized Column is
non-empty (in JavaScript the header read is `column[-1]`, that is
`undefined`, so the derived header is the text `undefined`). -/
theorem normalizeColumnEmptyPath :
    (normalizeColumn (Column.accList [])).prop = []
      ∧ (normalizeColumn (Column.accList [])).header = "undefined" :=
  ⟨rfl, rfl⟩

/-- C8 (amended): for every caller-supplied column specification whose
accessor list is non-empty, the Normalized Column has exactly that
non-empty accessor list as its path, and its header is the explicit header
when one was supplied, otherwise the string form of the final accessor of
the path. -/
theorem normalizeColumnInvariant (c : Column) (h : columnAccessors c ≠ []) :
    (normalizeColumn c).prop = columnAccessors c
      ∧ (normalizeColumn c).prop ≠ []
      ∧ (columnHeaderOpt c = none →
          (normalizeColumn c).header = lastAccessorText (columnAccessors c))
      ∧ (∀ hd, columnHeaderOpt c = some hd → (normalizeColumn c).header = hd) := by
  cases c with
  | acc a =>
    refine ⟨rfl, by simp [normalizeColumn], fun _ => ?_, fun hd hh => by
      simp [columnHeaderOpt] at hh⟩
    simp [normalizeColumn, columnAccessors, lastAccessorText]
  | accList accs =>
    exact ⟨rfl, h, fun _ => rfl, fun hd hh => by simp [columnHeaderOpt] at hh⟩
  | details hdr propSpec =>
    cases hdr with
    | none =>
      cases propSpec with
      | inl a =>
        exact ⟨rfl, by simp [normalizeColumn], fun _ => rfl,
          fun hd hh => by simp [columnHeaderOpt] at hh⟩
      | inr accs =>
        exact ⟨rfl, h, fun _ => rfl, fun hd hh => by simp [columnHeaderOpt] at hh⟩
    | some h0 =>
      cases propSpec with
      | inl a =>
        refine ⟨rfl, by simp [normalizeColumn], fun hc => ?_, fun hd hh => ?_⟩
        · simp [columnHeaderOpt] at hc
        · simp only [columnHeaderOpt, Option.some.injEq] at hh
          simpa [normalizeColumn] using hh
      | inr accs =>
        refine ⟨rfl, h, fun hc => ?_, fun hd hh => ?_⟩
        · simp [columnHeaderOpt] at hc
        · simp only [columnHeaderOpt, Option.some.injEq] at hh
          simpa [normalizeColumn] using hh

/-- Witness for C8 (amended): the two-accessor path column normalizes to
itself with header `b`. -/
theorem normalizeColumnInvariantWitness :
    (normalizeColumn (Column.accList [PropertyAccessor.str "a", PropertyAccessor.str "b"])).prop
      = [PropertyAccessor.str "a", PropertyAccessor.str "b"] :=
  (normalizeColumnInvariant
    (Column.accList [PropertyAccessor.str "a", PropertyAccessor.str "b"]) (by decide)).1

/-- C9: escaping is the identity on text free of the separator, line feeds
and double quotes, hence idempotent there. -/
theorem escapeIdOnPlainText (s sep : String)
    (h1 : strHasSub s sep = false) (h2 : strHasSub s "\n" = false)
    (h3 : strHasSub s "\"" = false) :
    getEscapedString (.vStr s) sep = s
      ∧ getEscapedString (.vStr (getEscapedString (.vStr s) sep)) sep
          = getEscapedString (.vStr s) sep := by
  have hq : needsQuoting s sep = false := by
    show (strHasSub s sep || strHasSub s "\n" || strHasSub s "\"") = false
    rw [h1, h2, h3]
    rfl
  have hmain : getEscapedString (.vStr s) sep = s := by
    rw [escapedNonAbsent (.vStr s) sep rfl,
      show textRep (Value.vStr s) = s from rfl, hq]
    rfl
  exact ⟨hmain, by rw [hmain, hmain]⟩

/-- Witness for C9: plain text passes through the escaper unchanged. -/
theorem escapeIdOnPlainTextWitness :
    getEscapedString (Value.vStr "abc") "," = "abc" :=
  (escapeIdOnPlainText "abc" "," rfl rfl rfl).1

/-- C10: a value whose text contains a carriage return but neither the
separator, a line feed nor a double quote is emitted verbatim and unquoted:
a bare carriage return alone never triggers quoting. -/
theorem bareCarriageReturnVerbatim (s sep : String)
    (_hcr : '\r' ∈ s.data)
    (h1 : strHasSub s sep = false) (h2 : strHasSub s "\n" = false)
    (h3 : strHasSub s "\"" = false) :
    getEscapedString (.vStr s) sep = s
      ∧ wrappedInQuotes (getEscapedString (.vStr s) sep) = false := by
  have hq : needsQuoting s sep = false := by
    show (strHasSub s sep || strHasSub s "\n" || strHasSub s "\"") = false
    rw [h1, h2, h3]
    rfl
  have hmain : getEscapedString (.vStr s) sep = s := by
    rw [escapedNonAbsent (.vStr s) sep rfl,
      show textRep (Value.vStr s) = s from rfl, hq]
    rfl
  refine ⟨hmain, ?_⟩
  rw [hmain]
  exact notWrappedOfNoQuote s.data (noQuoteOfNotHasSub s h3)

/-- Witness for C10: the field text with an embedded bare carriage return
is emitted verbatim. -/
theorem bareCarriageReturnVerbatimWitness :
    getEscapedString (Value.vStr "a\rb") "," = "a\rb" :=
  (bareCarriageReturnVerbatim "a\rb" "," (by decide) rfl rfl rfl).1

/-- C2 counterexample: the empty separator passes the separator validation,
the text representation of the `null` value contains it (every string
contains the empty string), yet the escaped field text is the unwrapped,
unquoted empty string rather than a double-quoted field. -/
theorem escapeQuotingRuleCex :
    (strHasSub (resolvedSeparator (some ⟨none, some "", none, none⟩)) "\""
        || strHasSub (resolvedSeparator (some ⟨none, some "", none, none⟩)) "\r\n") = false
      ∧ strHasSub (textRep Value.vNull) "" = true
      ∧ wrappedInQuotes (getEscapedString Value.vNull "") = false
      ∧ getEscapedString Value.vNull ""
          ≠ "\"" ++ escapeQuotes (textRep Value.vNull) ++ "\"" := by
  refine ⟨rfl, rfl, rfl, ?_⟩
  intro hcontra
  have : ([] : List Char) = ['"', '"'] := congrArg String.data hcontra
  cases this

/-- C2 (amended): for every value and every valid separator, outside the
vacuous combination of an absent value with the empty separator, the
escaped field text is wrapped in double-quotes exactly when the text
representation of the value contains the separator, a line feed or a
double quote; when wrapped, the text is the representation with every
embedded double-quote doubled (escaping by doubling, not
backslash-escaping); otherwise the representation is returned unchanged. -/
theorem escapeQuotingRule (v : Value) (sep : String)
    (_hsep : (strHasSub sep "\"" || strHasSub sep "\r\n") = false)
    (hva : ¬(isAbsentValue v = true ∧ sep = "")) :
    wrappedInQuotes (getEscapedString v sep) = needsQuoting (textRep v) sep
      ∧ (needsQuoting (textRep v) sep = true →
          getEscapedString v sep = "\"" ++ escapeQuotes (textRep v) ++ "\"")
      ∧ (needsQuoting (textRep v) sep = false → getEscapedString v sep = textRep v) := by
  cases habs : isAbsentValue v with
  | true =>
    have hsepne : sep ≠ "" := fun hh => hva ⟨habs, hh⟩
    have htr : textRep v = "" := by
      rw [textRep]
      simp [habs]
    have hesc : getEscapedString v sep = "" := by
      rw [getEscapedString]
      simp [habs]
    have h1 : strHasSub "" sep = false := by
      show hasSubList [] sep.data = false
      cases hs : sep.data with
      | nil => exact absurd hs (stringDataNeNil sep hsepne)
      | cons a t => rfl
    have hnq : needsQuoting (textRep v) sep = false := by
      rw [htr]
      show (strHasSub "" sep || strHasSub "" "\n" || strHasSub "" "\"") = false
      rw [h1]
      rfl
    refine ⟨?_, ?_, ?_⟩
    · rw [hesc, hnq]
      rfl
    · intro hq
      rw [hnq] at hq
      cases hq
    · intro _
      rw [hesc, htr]
  | false =>
    have hrw := escapedNonAbsent v sep habs
    cases hq : needsQuoting (textRep v) sep with
    | false =>
      rw [hq] at hrw
      simp at hrw
      have h3 : strHasSub (textRep v) "\"" = false := by
        have hq2 : (strHasSub (textRep v) sep || strHasSub (textRep v) "\n"
            || strHasSub (textRep v) "\"") = false := hq
        simp only [Bool.or_eq_false_iff] at hq2
        exact hq2.2
      refine ⟨?_, fun hcontra => absurd hcontra (by simp), fun _ => hrw⟩
      rw [hrw]
      exact notWrappedOfNoQuote (textRep v).data (noQuoteOfNotHasSub (textRep v) h3)
    | true =>
      rw [hq] at hrw
      simp at hrw
      refine ⟨?_, fun _ => hrw, fun hcontra => absurd hcontra (by simp)⟩
      rw [hrw]
      have hdata : ("\"" ++ escapeQuotes (textRep v) ++ "\"").data
          = '"' :: ((escapeQuotes (textRep v)).data ++ ['"']) := by
        rw [stringDataAppend, stringDataAppend]
        rfl
      show wrappedInQuotesList ("\"" ++ escapeQuotes (textRep v) ++ "\"").data = true
      rw [hdata]
      exact wrappedOfQuoteWrap ((escapeQuotes (textRep v)).data)

/-- Witness for C2 (amended): a field text with an embedded double quote is
wrapped and its quote doubled. -/
theorem escapeQuotingRuleWitness :
    getEscapedString (Value.vStr "x\"y") "," = "\"x\"\"y\"" :=
  (escapeQuotingRule (Value.vStr "x\"y") "," rfl (by decide)).2.1 rfl

/-- C4: with a valid separator, the output of `stringify` carries the
header line exactly when headers are requested (true or defaulted) and the
column list is non-empty; the header line joins the Normalized Column
headers escaped with the same rule as data values; no header line is
emitted when the column list is empty, in particular never in the
no-column-specification structural mode. -/
theorem headerLinePresence (data : List Value) (o : Option StringifyOptions)
    (hsep : (strHasSub (resolvedSeparator o) "\""
      || strHasSub (resolvedSeparator o) "\r\n") = false) :
    ((resolvedHeaders o = true ∧ resolvedColumns o ≠ []) →
      stringify data o
        = (writeRows ((resolvedColumns o).map normalizeColumn) (resolvedSeparator o) data).map
            (fun body => (if resolvedBom o then "\uFEFF" else "")
              ++ headerLineText ((resolvedColumns o).map normalizeColumn) (resolvedSeparator o)
              ++ body))
      ∧ ((resolvedHeaders o = false ∨ resolvedColumns o = []) →
        stringify data o
          = (writeRows ((resolvedColumns o).map normalizeColumn) (resolvedSeparator o) data).map
              (fun body => (if resolvedBom o then "\uFEFF" else "") ++ body)) := by
  constructor
  · rintro ⟨hh, hc⟩
    have hlen : 0 < ((resolvedColumns o).map normalizeColumn).length := by
      rw [List.length_map]
      exact List.length_pos.mpr hc
    have hlen2 : 0 < (resolvedColumns o).length := List.length_pos.mpr hc
    cases hw : writeRows ((resolvedColumns o).map normalizeColumn) (resolvedSeparator o) data with
    | error e => simp [stringify, hsep, hw, Except.map]
    | ok body => simp [stringify, hsep, hw, hh, hlen, hlen2, Except.map]
  · intro hor
    cases hor with
    | inl hf =>
      cases hw : writeRows ((resolvedColumns o).map normalizeColumn) (resolvedSeparator o) data with
      | error e => simp [stringify, hsep, hw, Except.map]
      | ok body => simp [stringify, hsep, hw, hf, Except.map, stringAppendEmpty]
    | inr hc =>
      cases hw : writeRows ((resolvedColumns o).map normalizeColumn) (resolvedSeparator o) data with
      | error e => simp [stringify, hsep, hw, Except.map]
      | ok body =>
        rw [hc] at hw
        simp only [List.map_nil] at hw
        simp [stringify, hsep, hw, hc, Except.map, stringAppendEmpty]

/-- Witness for C4: with no options the structural mode emits no header
line. -/
theorem headerLinePresenceWitness :
    stringify [Value.vStr "x"] none = Except.ok "x\r\n" :=
  (headerLinePresence [Value.vStr "x"] none rfl).2 (Or.inr rfl)

end CsvStringify
